import Mathlib

/-!
Shallow embedding of `multi_vector.hpp`: a fixed-capacity heterogeneous
structure-of-arrays container `multi_vector<Ts...>` with a builder.

Modelling conventions:
  * The type pack `Ts...` becomes `N : ℕ` together with a family
    `α : Fin N → Type` of element types; `sizeof`/`alignof` of the C++
    types become explicit functions `tsizes taligns : Fin N → ℕ`.
  * `std::size_t` arithmetic in the layout loop is modelled on `ℕ` with
    explicit reduction modulo `2 ^ 64` where the C++ code can wrap.
  * Pointers are modelled as `Option ℕ`: `none` is `nullptr`, `some a`
    is the non-null address `a`.  There is a single block per container,
    so per-type base pointers are `some (block_address + offset)`.
  * `::operator new` either returns a non-null pointer or throws
    `std::bad_alloc`; we model the successful path, so the allocator is
    an arbitrary address argument `addr` and `block_` becomes `some addr`
    (hence the `if (block)` test in `build()` is taken).
  * The constructed objects living in the block are modelled by a ghost
    field `mem i j : Option (α i)`: `some v` means a live object `v` of
    the i-th type at element index `j` (the C++ address
    `data(type i) + j`), `none` means uninitialized raw storage.
  * A ghost counter `ctor_count` counts placement-constructions performed
    into the block (default fills plus successful `push_back`s), mirroring
    the `Tracked` instrumentation of `tests.cpp`.
  * Throwing `std::length_error` is modelled by `Except`: `push_back`
    returns `.error .capacityExceeded` and, since the throw happens before
    any mutation, the caller's container is unchanged (`apply_push`).
  * Destructor calls are modelled as an event list: `teardown` returns the
    list of `(type index, element index)` pairs whose destructors the C++
    destructor would invoke, in invocation order.
-/

namespace MultiVec

/-- Machine word modulus: the C++ code computes sizes and offsets in
`std::size_t`, a 64-bit unsigned integer. -/
def WORD : ℕ := 2 ^ 64

/-- `align_up` from `multi_vector.hpp`:
`alignment ? (value + (alignment - 1)) & ~(alignment - 1) : value`,
where `~x` is the 64-bit complement `(2^64 - 1) - x` and `&` is bitwise
and; the intermediate sum wraps at `2^64` as `std::size_t` does. -/
def align_up (value alignment : ℕ) : ℕ :=
  if alignment = 0 then value
  else ((value + (alignment - 1)) % WORD) &&& ((WORD - 1) - ((alignment - 1) % WORD))

/-- The layout loop of `builder::build`, over the list of
`(sizeof, alignof, requested capacity)` tuples of the declared types:
`off = align_up(off, align); offsets[i] = off; off += caps[i] * sizes[i]`.
Returns the offset list and the final `off` (the total block size). -/
def layout_loop (off : ℕ) : List (ℕ × ℕ × ℕ) → List ℕ × ℕ
  | [] => ([], off)
  | (sz, al, cap) :: rest =>
      let o := align_up off al
      let r := layout_loop ((o + cap * sz) % WORD) rest
      (o :: r.1, r.2)

/-- Layout computation starting from offset 0, as in `builder::build`. -/
def layout (props : List (ℕ × ℕ × ℕ)) : List ℕ × ℕ := layout_loop 0 props

/-- `block_align_ = std::max({alignof(Ts)...})`: the maximum alignment
across the declared types. -/
def block_align {N : ℕ} (taligns : Fin N → ℕ) : ℕ :=
  Finset.univ.sup taligns

/-- `index_of<T, Us...>`: the compile-time index of the first occurrence
of `T` in the pack, modelled on a list of type identifiers; `none` models
the C++ compile error when `T` is absent. -/
def index_of (t : ℕ) : List ℕ → Option ℕ
  | [] => none
  | u :: us => if t = u then some 0 else (index_of t us).map (· + 1)

/-- `idx_v<T>` bundled with the bound `idx < N` that holds whenever the
pack has length `N` and `T` occurs in it. -/
def idx_v (N : ℕ) (ts : List ℕ) (t : ℕ) : Option (Fin N) :=
  match index_of t ts with
  | none => none
  | some k => if h : k < N then some ⟨k, h⟩ else none

/-- The state of a `multi_vector<Ts...>` object.  Fields `data_ptrs_`,
`sizes_`, `capacities_`, `block_`, `block_size_` are the C++ data members;
`mem` and `ctor_count` are ghost state (see the module docstring). -/
structure multi_vector (N : ℕ) (α : Fin N → Type) where
  data_ptrs_ : Fin N → Option ℕ
  sizes_ : Fin N → ℕ
  capacities_ : Fin N → ℕ
  block_ : Option ℕ
  block_size_ : ℕ
  mem : (i : Fin N) → ℕ → Option (α i)
  ctor_count : ℕ

variable {N : ℕ} {α : Fin N → Type}

/-- The default constructor `multi_vector() noexcept = default` with the
`{}` member initializers: null pointers, zero sizes and capacities. -/
def mk_empty (N : ℕ) (α : Fin N → Type) : multi_vector N α :=
  { data_ptrs_ := fun _ => none
    sizes_ := fun _ => 0
    capacities_ := fun _ => 0
    block_ := none
    block_size_ := 0
    mem := fun _ _ => none
    ctor_count := 0 }

/-- `size<idx>()`. -/
def multi_vector.size (mv : multi_vector N α) (i : Fin N) : ℕ := mv.sizes_ i

/-- `capacity<idx>()`. -/
def multi_vector.capacity (mv : multi_vector N α) (i : Fin N) : ℕ := mv.capacities_ i

/-- `data<idx>()`: the stored base pointer of the i-th array. -/
def multi_vector.data (mv : multi_vector N α) (i : Fin N) : Option ℕ := mv.data_ptrs_ i

/-- The failure condition of `push_back`: the C++ code throws
`std::length_error("multi_vector capacity exceeded for this type")`. -/
inductive PushError where
  | capacityExceeded
deriving DecidableEq, Repr

/-- `push_back<idx>(value)` (the `push_back<T>` body is identical once the
type selector is resolved to its index): throw if `size >= capacity`, else
placement-construct `value` at `data + size` and increment `size`. -/
def multi_vector.push_back (mv : multi_vector N α) (i : Fin N) (v : α i) :
    Except PushError (multi_vector N α) :=
  if mv.sizes_ i ≥ mv.capacities_ i then
    .error .capacityExceeded
  else
    .ok { mv with
      mem := Function.update mv.mem i
        (fun j => if j = mv.sizes_ i then some v else mv.mem i j)
      sizes_ := Function.update mv.sizes_ i (mv.sizes_ i + 1)
      ctor_count := mv.ctor_count + 1 }

/-- The state after a `push_back` call whether it succeeded or threw: the
throw happens before any mutation, so on failure the container is
unchanged. -/
def multi_vector.apply_push (mv : multi_vector N α) (i : Fin N) (v : α i) :
    multi_vector N α :=
  match mv.push_back i v with
  | .error _ => mv
  | .ok mv2 => mv2

/-- The move constructor `multi_vector(multi_vector&&)`: the first
component is the destination (all bookkeeping copied, block ownership and
the ghost state travelling with it), the second is the source afterwards
(reset to the empty state). -/
def multi_vector.move_construct (mv : multi_vector N α) :
    multi_vector N α × multi_vector N α :=
  ({ data_ptrs_ := mv.data_ptrs_
     sizes_ := mv.sizes_
     capacities_ := mv.capacities_
     block_ := mv.block_
     block_size_ := mv.block_size_
     mem := mv.mem
     ctor_count := mv.ctor_count },
   mk_empty N α)

/-- `destroy_elements_at<I>()` as an event list: the destructor calls
`(I, j)` for `j = 0, …, sizes_[I] - 1`, skipped entirely when the type is
trivially destructible (`triv I = true`). -/
def multi_vector.destroy_elements_at (triv : Fin N → Bool)
    (mv : multi_vector N α) (i : Fin N) : List (Fin N × ℕ) :=
  if triv i then [] else (List.range (mv.sizes_ i)).map (fun j => (i, j))

/-- `destroy_elements(make_index_sequence<N>)`: the fold over all type
indices in declared order. -/
def multi_vector.destroy_elements (triv : Fin N → Bool)
    (mv : multi_vector N α) : List (Fin N × ℕ) :=
  (List.finRange N).flatMap (mv.destroy_elements_at triv)

/-- The destructor `~multi_vector` as an event list: `if (!block_) return;`
then destroy every live element (the final `::operator delete` releases the
block and calls no element destructor). -/
def multi_vector.teardown (triv : Fin N → Bool)
    (mv : multi_vector N α) : List (Fin N × ℕ) :=
  if mv.block_ = none then [] else mv.destroy_elements triv

/-- `multi_vector::builder`: per-type requested capacities (`caps_`,
zero-initialized) and optional default values (`defaults_`, `nullopt`). -/
structure builder (N : ℕ) (α : Fin N → Type) where
  caps_ : Fin N → ℕ
  defaults_ : (i : Fin N) → Option (α i)

/-- A freshly constructed `builder`. -/
def builder.init (N : ℕ) (α : Fin N → Type) : builder N α :=
  { caps_ := fun _ => 0, defaults_ := fun _ => none }

/-- `builder::capacity<idx>(cap)`: record (overwrite) the requested
capacity for one type. -/
def builder.capacity (b : builder N α) (i : Fin N) (cap : ℕ) : builder N α :=
  { b with caps_ := Function.update b.caps_ i cap }

/-- `builder::default_value<idx>(value)`: record (overwrite) the default
fill value for one type. -/
def builder.default_value (b : builder N α) (i : Fin N) (v : α i) : builder N α :=
  { b with defaults_ := Function.update b.defaults_ i (some v) }

/-- `builder::init_default_at<I>(mv)`: if a default is recorded for type
`I`, copy-construct it into slots `0, …, caps_[I] - 1` (the loop is the
`foldl` over `List.range`) and set `sizes_[I] = caps_[I]`. -/
def builder.init_default_at (b : builder N α) (mv : multi_vector N α)
    (i : Fin N) : multi_vector N α :=
  match b.defaults_ i with
  | none => mv
  | some d =>
      { mv with
        mem := Function.update mv.mem i
          ((List.range (b.caps_ i)).foldl
            (fun m j => fun k => if k = j then some d else m k) (mv.mem i))
        sizes_ := Function.update mv.sizes_ i (b.caps_ i)
        ctor_count := mv.ctor_count + b.caps_ i }

/-- `builder::init_defaults(mv, make_index_sequence<N>)`: fold over all
type indices in declared order. -/
def builder.init_defaults (b : builder N α) (mv : multi_vector N α) :
    multi_vector N α :=
  (List.finRange N).foldl b.init_default_at mv

/-- The `(sizeof, alignof, capacity)` tuples of the declared types, in
declared order, as fed to the layout loop by `builder::build`. -/
def builder.props (tsizes taligns : Fin N → ℕ) (b : builder N α) :
    List (ℕ × ℕ × ℕ) :=
  List.ofFn (fun i => (tsizes i, taligns i, b.caps_ i))

/-- The single aggregate allocation request of `builder::build`:
`::operator new(off, std::align_val_t{block_align_})` — the pair
(total byte size, alignment). -/
def builder.alloc_request (tsizes taligns : Fin N → ℕ) (b : builder N α) :
    ℕ × ℕ :=
  ((layout (b.props tsizes taligns)).2, block_align taligns)

/-- `builder::build()` on the successful-allocation path, with `addr` the
address returned by `::operator new` (never null: failure throws).  Runs
the layout loop, installs block/base pointers/capacities, then
`init_defaults`. -/
def builder.build (tsizes taligns : Fin N → ℕ) (b : builder N α)
    (addr : ℕ) : multi_vector N α :=
  let offs := (layout (b.props tsizes taligns)).1
  b.init_defaults
    { data_ptrs_ := fun i => some (addr + offs.getD i 0)
      sizes_ := fun _ => 0
      capacities_ := b.caps_
      block_ := some addr
      block_size_ := (layout (b.props tsizes taligns)).2
      mem := fun _ _ => none
      ctor_count := 0 }

/-- The order in which `init_defaults` placement-constructs default
copies: for each type index in declared order with a recorded default,
all element indices in increasing order. -/
def builder.init_default_events (b : builder N α) : List (Fin N × ℕ) :=
  (List.finRange N).flatMap (fun i =>
    match b.defaults_ i with
    | none => []
    | some _ => (List.range (b.caps_ i)).map (fun j => (i, j)))

/-- By-type accessor `size<T>()`, via the resolved pack index. -/
def size_by_type (ts : List ℕ) (t : ℕ) (mv : multi_vector N α) : Option ℕ :=
  (idx_v N ts t).map mv.sizes_

/-- By-type accessor `capacity<T>()`, via the resolved pack index. -/
def capacity_by_type (ts : List ℕ) (t : ℕ) (mv : multi_vector N α) : Option ℕ :=
  (idx_v N ts t).map mv.capacities_

/-- By-type accessor `data<T>()`, via the resolved pack index. -/
def data_by_type (ts : List ℕ) (t : ℕ) (mv : multi_vector N α) :
    Option (Option ℕ) :=
  (idx_v N ts t).map mv.data_ptrs_

/-- By-type `push_back<T>(value)`, via the resolved pack index (stated for
a homogeneous element family, where the pushed value's type does not
depend on the resolved slot). -/
def push_back_by_type {β : Type} (ts : List ℕ) (t : ℕ)
    (mv : multi_vector N (fun _ => β)) (v : β) :
    Option (Except PushError (multi_vector N (fun _ => β))) :=
  (idx_v N ts t).map (fun i => mv.push_back i v)

/-- The containers reachable through the public lifecycle: default
construction, `builder::build`, `push_back` (succeeding or throwing), and
either side of a move construction. -/
inductive Reachable : {N : ℕ} → {α : Fin N → Type} → multi_vector N α → Prop where
  | empty {N α} : Reachable (mk_empty N α)
  | built {N α} (tsizes taligns : Fin N → ℕ) (b : builder N α) (addr : ℕ) :
      Reachable (b.build tsizes taligns addr)
  | pushed {N α} {mv : multi_vector N α} (i : Fin N) (v : α i) :
      Reachable mv → Reachable (mv.apply_push i v)
  | moved_dst {N α} {mv : multi_vector N α} :
      Reachable mv → Reachable mv.move_construct.1
  | moved_src {N α} {mv : multi_vector N α} :
      Reachable mv → Reachable mv.move_construct.2

/-- Strict ordering on destruction/construction events: earlier declared
type first, and within one type smaller element index first. -/
def event_lt (p q : Fin N × ℕ) : Prop :=
  p.1 < q.1 ∨ (p.1 = q.1 ∧ p.2 < q.2)

/-- Total number of live elements across all types. -/
def multi_vector.live_total (mv : multi_vector N α) : ℕ :=
  ((List.finRange N).map mv.sizes_).sum

/-- A sequence of `push_back` calls interleaved across types, stopping at
the first failure (a C++ caller's exception propagates). -/
def multi_vector.push_seq (mv : multi_vector N α) :
    List ((i : Fin N) × α i) → Except PushError (multi_vector N α)
  | [] => .ok mv
  | ⟨i, v⟩ :: rest =>
    match mv.push_back i v with
    | .error e => .error e
    | .ok mv2 => mv2.push_seq rest

/-- The values a push sequence inserts for one given type, in insertion
order. -/
def pushed_for : List ((i : Fin N) × α i) → (j : Fin N) → List (α j)
  | [], _ => []
  | ⟨i, v⟩ :: rest, j =>
      if h : i = j then (h ▸ v) :: pushed_for rest j else pushed_for rest j

/-- Reading type `i`'s slots `[0, size)` back through `data(type i)`:
the object at `data + j` for each `j < sizes_[i]`. -/
def multi_vector.read_slots (mv : multi_vector N α) (i : Fin N) :
    List (Option (α i)) :=
  (List.range (mv.sizes_ i)).map (mv.mem i)

/-- The elements `builder::build` leaves constructed for type `i`:
`capacity` copies of the recorded default, or nothing. -/
def builder.fill_content (b : builder N α) (i : Fin N) : List (α i) :=
  match b.defaults_ i with
  | none => []
  | some d => List.replicate (b.caps_ i) d

/-- The container `mv` holds exactly the element lists `c`: sizes match,
every live slot holds the corresponding list entry, and slots past the
live range are uninitialized. -/
def Represents (mv : multi_vector N α) (c : (i : Fin N) → List (α i)) : Prop :=
  ∀ i, mv.sizes_ i = (c i).length ∧ ∀ j, mv.mem i j = (c i)[j]?

/-! ### A concrete instantiation, `multi_vector<A, B>` with two 8-byte,
8-aligned element types holding naturals (used to evaluate the theorems
on concrete inputs). -/

/-- Two declared types, both holding naturals. -/
abbrev alphaW : Fin 2 → Type := fun _ => ℕ

/-- `sizeof` of both concrete types: 8 bytes. -/
def tszW : Fin 2 → ℕ := fun _ => 8

/-- `alignof` of both concrete types: 8 bytes. -/
def talW : Fin 2 → ℕ := fun _ => 8

/-- A builder requesting capacities (2, 1), no defaults. -/
def bW : builder 2 alphaW :=
  ((builder.init 2 alphaW).capacity 0 2).capacity 1 1

/-- The container built from `bW` with the block at address 64. -/
def mvW : multi_vector 2 alphaW := bW.build tszW talW 64

/-- A builder requesting capacities (3, 1) with default value 42 for
type 0. -/
def bD : builder 2 alphaW :=
  (((builder.init 2 alphaW).capacity 0 3).capacity 1 1).default_value 0 42

/-- The container built from `bD` with the block at address 64. -/
def mvD : multi_vector 2 alphaW := bD.build tszW talW 64

/-- A builder requesting capacities (1, 0): type 1 gets no storage. -/
def bZ : builder 2 alphaW :=
  ((builder.init 2 alphaW).capacity 0 1).capacity 1 0

/-- The container built from `bZ` with the block at address 64. -/
def mvZ : multi_vector 2 alphaW := bZ.build tszW talW 64

/-! ### Arithmetic and layout lemmas -/

lemma land_two_pow_sub_one_sub {n x : ℕ} (hx : x < 2 ^ n) :
    x &&& (2 ^ n - 1 - x) = 0 := by
  have h : 2 ^ n - 1 - x = 2 ^ n - (x + 1) := by omega
  apply Nat.eq_of_testBit_eq
  intro i
  rw [Nat.testBit_land, h, Nat.testBit_two_pow_sub_succ hx, Nat.zero_testBit]
  cases x.testBit i <;> simp

/-- `align_up 0 a = 0` for every alignment: offset 0 is aligned for
every type. -/
lemma align_up_zero_left (a : ℕ) : align_up 0 a = 0 := by
  unfold align_up
  split
  · rfl
  · rw [Nat.zero_add]
    exact land_two_pow_sub_one_sub (Nat.mod_lt _ (by norm_num [WORD]))

/-- Reducing the value modulo `2^64` before rounding up is invisible, for
a nonzero alignment (as every C++ alignment is). -/
lemma align_up_mod {a : ℕ} (ha : a ≠ 0) (x : ℕ) :
    align_up (x % WORD) a = align_up x a := by
  unfold align_up
  rw [if_neg ha, if_neg ha, Nat.mod_add_mod]

lemma layout_loop_length (L : List (ℕ × ℕ × ℕ)) (off : ℕ) :
    (layout_loop off L).1.length = L.length := by
  induction L generalizing off with
  | nil => rfl
  | cons p rest ih =>
      obtain ⟨sz, al, cap⟩ := p
      simp only [layout_loop, List.length_cons, ih]

lemma layout_loop_getD_zero (L : List (ℕ × ℕ × ℕ)) (off : ℕ) (hL : 0 < L.length) :
    (layout_loop off L).1.getD 0 0 = align_up off (L.getD 0 (0, 0, 0)).2.1 := by
  match L with
  | [] => simp at hL
  | (sz, al, cap) :: rest => rfl

lemma layout_loop_getD_succ (L : List (ℕ × ℕ × ℕ)) (off k : ℕ)
    (hk : k + 1 < L.length) (hal : (L.getD (k + 1) (0, 0, 0)).2.1 ≠ 0) :
    (layout_loop off L).1.getD (k + 1) 0 =
      align_up
        ((layout_loop off L).1.getD k 0 +
          (L.getD k (0, 0, 0)).2.2 * (L.getD k (0, 0, 0)).1)
        (L.getD (k + 1) (0, 0, 0)).2.1 := by
  induction L generalizing off k with
  | nil => simp at hk
  | cons p rest ih =>
      obtain ⟨sz, al, cap⟩ := p
      match k with
      | 0 =>
          have hrest : 0 < rest.length := by
            simpa using Nat.lt_of_succ_lt_succ hk
          have hal0 : (rest.getD 0 (0, 0, 0)).2.1 ≠ 0 := by
            simpa using hal
          simp only [layout_loop, List.getD_cons_succ, List.getD_cons_zero]
          rw [layout_loop_getD_zero rest _ hrest, align_up_mod hal0]
      | k + 1 =>
          have hk' : k + 1 < rest.length := by
            simpa using Nat.lt_of_succ_lt_succ hk
          have hal' : (rest.getD (k + 1) (0, 0, 0)).2.1 ≠ 0 := by
            simpa using hal
          simp only [layout_loop, List.getD_cons_succ]
          exact ih _ _ hk' hal'

lemma block_align_le (taligns : Fin N → ℕ) (i : Fin N) :
    taligns i ≤ block_align taligns :=
  Finset.le_sup (Finset.mem_univ i)

lemma block_align_attained (hN : 0 < N) (taligns : Fin N → ℕ) :
    ∃ i, block_align taligns = taligns i := by
  obtain ⟨i, -, h⟩ :=
    Finset.exists_mem_eq_sup Finset.univ
      (Finset.univ_nonempty_iff.mpr ⟨⟨0, hN⟩⟩) taligns
  exact ⟨i, h⟩

/-! ### Type-selector resolution -/

lemma index_of_eq_of_getElem? {ts : List ℕ} {t : ℕ} {k : ℕ}
    (hnd : ts.Nodup) (hk : ts[k]? = some t) : index_of t ts = some k := by
  induction ts generalizing k with
  | nil => simp at hk
  | cons u us ih =>
      match k with
      | 0 =>
          simp only [List.getElem?_cons_zero, Option.some.injEq] at hk
          subst hk
          simp [index_of]
      | k + 1 =>
          simp only [List.getElem?_cons_succ] at hk
          have htu : t ≠ u := by
            intro h
            subst h
            exact (List.nodup_cons.mp hnd).1 (List.getElem?_mem hk)
          rw [index_of, if_neg htu, ih (List.nodup_cons.mp hnd).2 hk]
          rfl

lemma idx_v_eq {ts : List ℕ} {t : ℕ} {i : Fin N}
    (hnd : ts.Nodup) (hi : ts[i.val]? = some t) :
    idx_v N ts t = some i := by
  rw [idx_v, index_of_eq_of_getElem? hnd hi]
  simp [i.isLt]

/-! ### `push_back` lemmas -/

variable {mv : multi_vector N α} {i : Fin N} {v : α i}

lemma push_back_of_full (h : mv.capacities_ i ≤ mv.sizes_ i) :
    mv.push_back i v = .error .capacityExceeded := by
  rw [multi_vector.push_back, if_pos h]

lemma apply_push_of_full (h : mv.capacities_ i ≤ mv.sizes_ i) :
    mv.apply_push i v = mv := by
  rw [multi_vector.apply_push, push_back_of_full h]

lemma push_back_of_lt (h : mv.sizes_ i < mv.capacities_ i) :
    mv.push_back i v = .ok (mv.apply_push i v) := by
  rw [multi_vector.apply_push, multi_vector.push_back, if_neg (Nat.not_le.mpr h)]

lemma apply_push_of_lt (h : mv.sizes_ i < mv.capacities_ i) :
    mv.apply_push i v =
      { mv with
        mem := Function.update mv.mem i
          (fun j => if j = mv.sizes_ i then some v else mv.mem i j)
        sizes_ := Function.update mv.sizes_ i (mv.sizes_ i + 1)
        ctor_count := mv.ctor_count + 1 } := by
  rw [multi_vector.apply_push, multi_vector.push_back, if_neg (Nat.not_le.mpr h)]

/-! ### Move construction lemmas -/

lemma move_construct_fst (mv : multi_vector N α) : mv.move_construct.1 = mv := rfl

lemma move_construct_snd (mv : multi_vector N α) :
    mv.move_construct.2 = mk_empty N α := rfl

/-! ### Default-fill lemmas -/

variable {b : builder N α}

lemma fill_foldl {i : Fin N} (d : α i) (cap : ℕ) (m : ℕ → Option (α i)) (k : ℕ) :
    ((List.range cap).foldl
        (fun m j => fun k => if k = j then some d else m k) m) k
      = if k < cap then some d else m k := by
  induction cap with
  | zero => simp
  | succ c ih =>
      rw [List.range_succ, List.foldl_append]
      simp only [List.foldl_cons, List.foldl_nil]
      by_cases hk : k = c
      · subst hk
        simp
      · rw [if_neg hk, ih]
        by_cases hlt : k < c
        · rw [if_pos hlt, if_pos (Nat.lt_succ_of_lt hlt)]
        · rw [if_neg hlt, if_neg (by omega)]

lemma init_default_at_of_none {j : Fin N} (h : b.defaults_ j = none)
    (mv : multi_vector N α) : b.init_default_at mv j = mv := by
  rw [builder.init_default_at, h]

lemma init_default_at_capacities (mv : multi_vector N α) (j : Fin N) :
    (b.init_default_at mv j).capacities_ = mv.capacities_ := by
  rw [builder.init_default_at]
  cases b.defaults_ j <;> rfl

lemma init_default_at_data_ptrs (mv : multi_vector N α) (j : Fin N) :
    (b.init_default_at mv j).data_ptrs_ = mv.data_ptrs_ := by
  rw [builder.init_default_at]
  cases b.defaults_ j <;> rfl

lemma init_default_at_block (mv : multi_vector N α) (j : Fin N) :
    (b.init_default_at mv j).block_ = mv.block_ := by
  rw [builder.init_default_at]
  cases b.defaults_ j <;> rfl

lemma init_default_at_block_size (mv : multi_vector N α) (j : Fin N) :
    (b.init_default_at mv j).block_size_ = mv.block_size_ := by
  rw [builder.init_default_at]
  cases b.defaults_ j <;> rfl

lemma init_default_at_sizes_self (mv : multi_vector N α) (j : Fin N) :
    (b.init_default_at mv j).sizes_ j =
      if (b.defaults_ j).isSome then b.caps_ j else mv.sizes_ j := by
  rw [builder.init_default_at]
  cases b.defaults_ j with
  | none => rfl
  | some d => simp

lemma init_default_at_sizes_ne (mv : multi_vector N α) {j j' : Fin N}
    (h : j' ≠ j) : (b.init_default_at mv j).sizes_ j' = mv.sizes_ j' := by
  rw [builder.init_default_at]
  cases b.defaults_ j with
  | none => rfl
  | some d => simp [Function.update_noteq h]

lemma init_default_at_mem_self {j : Fin N} {d : α j} (h : b.defaults_ j = some d)
    (mv : multi_vector N α) (k : ℕ) :
    (b.init_default_at mv j).mem j k =
      if k < b.caps_ j then some d else mv.mem j k := by
  rw [builder.init_default_at, h]
  simp only [Function.update_same]
  exact fill_foldl d (b.caps_ j) (mv.mem j) k

lemma init_default_at_mem_ne (mv : multi_vector N α) {j j' : Fin N}
    (h : j' ≠ j) : (b.init_default_at mv j).mem j' = mv.mem j' := by
  rw [builder.init_default_at]
  cases b.defaults_ j with
  | none => rfl
  | some d => simp [Function.update_noteq h]

lemma init_default_at_ctor (mv : multi_vector N α) (j : Fin N) :
    (b.init_default_at mv j).ctor_count =
      mv.ctor_count + (if (b.defaults_ j).isSome then b.caps_ j else 0) := by
  rw [builder.init_default_at]
  cases b.defaults_ j with
  | none => rfl
  | some d => simp

/-! ### `init_defaults` fold lemmas -/

lemma foldl_init_capacities (l : List (Fin N)) :
    ∀ mv : multi_vector N α,
      (l.foldl b.init_default_at mv).capacities_ = mv.capacities_ := by
  induction l with
  | nil => intro mv; rfl
  | cons x xs ih =>
      intro mv
      rw [List.foldl_cons, ih, init_default_at_capacities]

lemma foldl_init_data_ptrs (l : List (Fin N)) :
    ∀ mv : multi_vector N α,
      (l.foldl b.init_default_at mv).data_ptrs_ = mv.data_ptrs_ := by
  induction l with
  | nil => intro mv; rfl
  | cons x xs ih =>
      intro mv
      rw [List.foldl_cons, ih, init_default_at_data_ptrs]

lemma foldl_init_block (l : List (Fin N)) :
    ∀ mv : multi_vector N α,
      (l.foldl b.init_default_at mv).block_ = mv.block_ := by
  induction l with
  | nil => intro mv; rfl
  | cons x xs ih =>
      intro mv
      rw [List.foldl_cons, ih, init_default_at_block]

lemma foldl_init_block_size (l : List (Fin N)) :
    ∀ mv : multi_vector N α,
      (l.foldl b.init_default_at mv).block_size_ = mv.block_size_ := by
  induction l with
  | nil => intro mv; rfl
  | cons x xs ih =>
      intro mv
      rw [List.foldl_cons, ih, init_default_at_block_size]

lemma foldl_init_sizes_not_mem {l : List (Fin N)} {i : Fin N} (hi : i ∉ l) :
    ∀ mv : multi_vector N α,
      (l.foldl b.init_default_at mv).sizes_ i = mv.sizes_ i := by
  induction l with
  | nil => intro mv; rfl
  | cons x xs ih =>
      intro mv
      have hx : i ≠ x := fun h => hi (h ▸ List.mem_cons_self x xs)
      rw [List.foldl_cons, ih (fun h => hi (List.mem_cons_of_mem x h)),
        init_default_at_sizes_ne _ hx]

lemma foldl_init_mem_not_mem {l : List (Fin N)} {i : Fin N} (hi : i ∉ l) :
    ∀ mv : multi_vector N α,
      (l.foldl b.init_default_at mv).mem i = mv.mem i := by
  induction l with
  | nil => intro mv; rfl
  | cons x xs ih =>
      intro mv
      have hx : i ≠ x := fun h => hi (h ▸ List.mem_cons_self x xs)
      rw [List.foldl_cons, ih (fun h => hi (List.mem_cons_of_mem x h)),
        init_default_at_mem_ne _ hx]

lemma foldl_init_sizes_mem {l : List (Fin N)} {i : Fin N}
    (hnd : l.Nodup) (hi : i ∈ l) :
    ∀ mv : multi_vector N α,
      (l.foldl b.init_default_at mv).sizes_ i =
        if (b.defaults_ i).isSome then b.caps_ i else mv.sizes_ i := by
  induction l with
  | nil => simp at hi
  | cons x xs ih =>
      intro mv
      rcases List.nodup_cons.mp hnd with ⟨hx, hxs⟩
      rw [List.foldl_cons]
      by_cases hix : i = x
      · subst hix
        rw [foldl_init_sizes_not_mem hx, init_default_at_sizes_self]
      · have hmem : i ∈ xs := by
          rcases List.mem_cons.mp hi with h | h
          · exact absurd h hix
          · exact h
        rw [ih hxs hmem, init_default_at_sizes_ne _ hix]

lemma foldl_init_mem_mem {l : List (Fin N)} {i : Fin N} {d : α i}
    (hd : b.defaults_ i = some d) (hnd : l.Nodup) (hi : i ∈ l) :
    ∀ (mv : multi_vector N α) (k : ℕ),
      (l.foldl b.init_default_at mv).mem i k =
        if k < b.caps_ i then some d else mv.mem i k := by
  induction l with
  | nil => simp at hi
  | cons x xs ih =>
      intro mv k
      rcases List.nodup_cons.mp hnd with ⟨hx, hxs⟩
      rw [List.foldl_cons]
      by_cases hix : i = x
      · subst hix
        rw [foldl_init_mem_not_mem hx, init_default_at_mem_self hd]
      · have hmem : i ∈ xs := by
          rcases List.mem_cons.mp hi with h | h
          · exact absurd h hix
          · exact h
        rw [ih hxs hmem, init_default_at_mem_ne _ hix]

lemma foldl_init_mem_of_none {l : List (Fin N)} {i : Fin N}
    (hd : b.defaults_ i = none) :
    ∀ mv : multi_vector N α,
      (l.foldl b.init_default_at mv).mem i = mv.mem i := by
  induction l with
  | nil => intro mv; rfl
  | cons x xs ih =>
      intro mv
      rw [List.foldl_cons, ih]
      by_cases hix : i = x
      · subst hix
        rw [init_default_at_of_none hd]
      · rw [init_default_at_mem_ne _ hix]

lemma foldl_init_ctor (l : List (Fin N)) :
    ∀ mv : multi_vector N α,
      (l.foldl b.init_default_at mv).ctor_count =
        mv.ctor_count +
          (l.map (fun i => if (b.defaults_ i).isSome then b.caps_ i else 0)).sum := by
  induction l with
  | nil => intro mv; simp
  | cons x xs ih =>
      intro mv
      rw [List.foldl_cons, ih, init_default_at_ctor, List.map_cons, List.sum_cons]
      omega

/-! ### `builder::build` field lemmas -/

lemma build_capacities (tsizes taligns : Fin N → ℕ) (addr : ℕ) :
    (b.build tsizes taligns addr).capacities_ = b.caps_ := by
  rw [builder.build, builder.init_defaults, foldl_init_capacities]

lemma build_block (tsizes taligns : Fin N → ℕ) (addr : ℕ) :
    (b.build tsizes taligns addr).block_ = some addr := by
  rw [builder.build, builder.init_defaults, foldl_init_block]

lemma build_block_size (tsizes taligns : Fin N → ℕ) (addr : ℕ) :
    (b.build tsizes taligns addr).block_size_ =
      (layout (b.props tsizes taligns)).2 := by
  rw [builder.build, builder.init_defaults, foldl_init_block_size]

lemma build_data_ptrs (tsizes taligns : Fin N → ℕ) (addr : ℕ) (i : Fin N) :
    (b.build tsizes taligns addr).data_ptrs_ i =
      some (addr + (layout (b.props tsizes taligns)).1.getD i 0) := by
  rw [builder.build, builder.init_defaults, foldl_init_data_ptrs]

lemma build_sizes (tsizes taligns : Fin N → ℕ) (addr : ℕ) (i : Fin N) :
    (b.build tsizes taligns addr).sizes_ i =
      if (b.defaults_ i).isSome then b.caps_ i else 0 := by
  rw [builder.build, builder.init_defaults,
    foldl_init_sizes_mem (List.nodup_finRange N) (List.mem_finRange i)]

lemma build_mem_some {i : Fin N} {d : α i} (hd : b.defaults_ i = some d)
    (tsizes taligns : Fin N → ℕ) (addr : ℕ) (k : ℕ) :
    (b.build tsizes taligns addr).mem i k =
      if k < b.caps_ i then some d else none := by
  rw [builder.build, builder.init_defaults,
    foldl_init_mem_mem hd (List.nodup_finRange N) (List.mem_finRange i)]

lemma build_mem_none {i : Fin N} (hd : b.defaults_ i = none)
    (tsizes taligns : Fin N → ℕ) (addr : ℕ) :
    (b.build tsizes taligns addr).mem i = fun _ => none := by
  rw [builder.build, builder.init_defaults, foldl_init_mem_of_none hd]

lemma build_ctor (tsizes taligns : Fin N → ℕ) (addr : ℕ) :
    (b.build tsizes taligns addr).ctor_count =
      ((List.finRange N).map
        (fun i => if (b.defaults_ i).isSome then b.caps_ i else 0)).sum := by
  rw [builder.build, builder.init_defaults, foldl_init_ctor]
  simp

/-! ### Reachability invariant -/

lemma map_update_not_mem {l : List (Fin N)} {i : Fin N} (hi : i ∉ l)
    (f : Fin N → ℕ) (v : ℕ) :
    l.map (Function.update f i v) = l.map f := by
  apply List.map_congr_left
  intro a ha
  apply Function.update_noteq
  rintro rfl
  exact hi ha

lemma sum_map_update_add {l : List (Fin N)} {i : Fin N}
    (hnd : l.Nodup) (hi : i ∈ l) (f : Fin N → ℕ) (c : ℕ) :
    (l.map (Function.update f i (f i + c))).sum = (l.map f).sum + c := by
  induction l with
  | nil => simp at hi
  | cons x xs ih =>
      rcases List.nodup_cons.mp hnd with ⟨hx, hxs⟩
      rw [List.map_cons, List.map_cons, List.sum_cons, List.sum_cons]
      by_cases hix : i = x
      · subst hix
        rw [Function.update_same, map_update_not_mem hx]
        omega
      · have hmem : i ∈ xs := by
          rcases List.mem_cons.mp hi with h | h
          · exact absurd h hix
          · exact h
        rw [Function.update_noteq (Ne.symm hix), ih hxs hmem]
        omega

/-- The state invariant maintained by every reachable container: sizes
bounded by capacities, the ghost constructor count equals the live
element count, a blockless container is fully reset, and a base pointer
is null exactly when the block pointer is. -/
def GoodState (mv : multi_vector N α) : Prop :=
  (∀ i, mv.sizes_ i ≤ mv.capacities_ i) ∧
  mv.ctor_count = mv.live_total ∧
  (mv.block_ = none →
    ∀ i, mv.sizes_ i = 0 ∧ mv.capacities_ i = 0 ∧ mv.data_ptrs_ i = none) ∧
  (∀ i, (mv.data_ptrs_ i = none ↔ mv.block_ = none))

lemma goodState_mk_empty : GoodState (mk_empty N α) := by
  refine ⟨fun i => Nat.le_refl _, ?_, fun _ i => ⟨rfl, rfl, rfl⟩, fun i => ?_⟩
  · simp [mk_empty, multi_vector.live_total]
  · simp [mk_empty]

lemma goodState_build (tsizes taligns : Fin N → ℕ) (b : builder N α)
    (addr : ℕ) : GoodState (b.build tsizes taligns addr) := by
  refine ⟨fun i => ?_, ?_, fun hb => ?_, fun i => ?_⟩
  · rw [build_sizes, build_capacities]
    split
    · exact Nat.le_refl _
    · exact Nat.zero_le _
  · rw [build_ctor, multi_vector.live_total]
    apply congrArg List.sum
    apply List.map_congr_left
    intro i _
    rw [build_sizes]
  · rw [build_block] at hb
    exact absurd hb (by simp)
  · rw [build_block, build_data_ptrs]
    simp

lemma goodState_push {mv : multi_vector N α} (h : GoodState mv)
    (i : Fin N) (v : α i) : GoodState (mv.apply_push i v) := by
  by_cases hc : mv.capacities_ i ≤ mv.sizes_ i
  · rw [apply_push_of_full hc]
    exact h
  · have hlt : mv.sizes_ i < mv.capacities_ i := Nat.not_le.mp hc
    rw [apply_push_of_lt hlt]
    obtain ⟨hbound, hctor, hblock, hdata⟩ := h
    refine ⟨fun j => ?_, ?_, fun hb => ?_, fun j => hdata j⟩
    · by_cases hj : j = i
      · subst hj
        simp only [Function.update_same]
        exact hlt
      · simp only [Function.update_noteq hj]
        exact hbound j
    · show mv.ctor_count + 1 = ((List.finRange N).map _).sum
      rw [sum_map_update_add (List.nodup_finRange N) (List.mem_finRange i)
        mv.sizes_ 1, hctor]
      rfl
    · rcases (hblock hb i) with ⟨-, hcap, -⟩
      omega

lemma reachable_goodState {mv : multi_vector N α}
    (h : Reachable mv) : GoodState mv := by
  induction h with
  | empty => exact goodState_mk_empty
  | built tsizes taligns b addr => exact goodState_build tsizes taligns b addr
  | pushed i v _ ih => exact goodState_push ih i v
  | moved_dst _ ih => rw [move_construct_fst]; exact ih
  | moved_src _ _ => rw [move_construct_snd]; exact goodState_mk_empty

/-! ### Destruction-order lemmas -/

lemma pairwise_event_lt_pairs {g : Fin N → List ℕ}
    (hg : ∀ i, (g i).Pairwise (· < ·)) :
    ((List.finRange N).flatMap
      (fun i => (g i).map (fun j => ((i, j) : Fin N × ℕ)))).Pairwise event_lt := by
  apply List.pairwise_flatMap.mpr
  constructor
  · intro i _
    apply (List.pairwise_map).mpr
    exact (hg i).imp (fun hab => Or.inr ⟨rfl, hab⟩)
  · apply (List.pairwise_lt_finRange N).imp
    intro i1 i2 h12 x hx y hy
    rcases List.mem_map.mp hx with ⟨j1, -, rfl⟩
    rcases List.mem_map.mp hy with ⟨j2, -, rfl⟩
    exact Or.inl h12

lemma destroy_elements_at_eq (triv : Fin N → Bool) (mv : multi_vector N α)
    (i : Fin N) :
    mv.destroy_elements_at triv i =
      (if triv i then [] else List.range (mv.sizes_ i)).map
        (fun j => ((i, j) : Fin N × ℕ)) := by
  rw [multi_vector.destroy_elements_at]
  split <;> rfl

lemma destroy_elements_pairwise (triv : Fin N → Bool) (mv : multi_vector N α) :
    (mv.destroy_elements triv).Pairwise event_lt := by
  rw [multi_vector.destroy_elements]
  rw [List.flatMap_congr (fun i _ => destroy_elements_at_eq triv mv i)]
  apply pairwise_event_lt_pairs
  intro i
  split
  · exact List.Pairwise.nil
  · exact List.pairwise_lt_range _

lemma destroy_elements_mem (triv : Fin N → Bool) (mv : multi_vector N α)
    (p : Fin N × ℕ) :
    p ∈ mv.destroy_elements triv ↔
      triv p.1 = false ∧ p.2 < mv.sizes_ p.1 := by
  rw [multi_vector.destroy_elements, List.mem_flatMap]
  constructor
  · rintro ⟨i, -, hp⟩
    rw [multi_vector.destroy_elements_at] at hp
    split at hp
    · simp at hp
    · rcases List.mem_map.mp hp with ⟨j, hj, rfl⟩
      exact ⟨by simp_all, List.mem_range.mp hj⟩
  · rintro ⟨htr, hlt⟩
    refine ⟨p.1, List.mem_finRange _, ?_⟩
    rw [multi_vector.destroy_elements_at, if_neg (by simp [htr])]
    exact List.mem_map.mpr ⟨p.2, List.mem_range.mpr hlt, rfl⟩

lemma destroy_elements_length (mv : multi_vector N α) :
    (mv.destroy_elements (fun _ => false)).length = mv.live_total := by
  rw [multi_vector.destroy_elements, List.flatMap, List.length_flatten,
    List.map_map, multi_vector.live_total]
  apply congrArg List.sum
  apply List.map_congr_left
  intro i _
  simp [multi_vector.destroy_elements_at]

lemma teardown_of_no_block {mv : multi_vector N α} (h : mv.block_ = none)
    (triv : Fin N → Bool) : mv.teardown triv = [] := by
  rw [multi_vector.teardown, if_pos h]

lemma teardown_of_block {mv : multi_vector N α} (h : mv.block_ ≠ none)
    (triv : Fin N → Bool) : mv.teardown triv = mv.destroy_elements triv := by
  rw [multi_vector.teardown, if_neg h]

/-! ### Default-fill event-order lemmas -/

lemma init_default_events_eq (b : builder N α) :
    b.init_default_events =
      (List.finRange N).flatMap
        (fun i =>
          (if (b.defaults_ i).isSome then List.range (b.caps_ i) else []).map
            (fun j => ((i, j) : Fin N × ℕ))) := by
  rw [builder.init_default_events]
  apply List.flatMap_congr
  intro i _
  cases hd : b.defaults_ i <;> simp [hd]

lemma init_default_events_pairwise (b : builder N α) :
    b.init_default_events.Pairwise event_lt := by
  rw [init_default_events_eq]
  apply pairwise_event_lt_pairs
  intro i
  split
  · exact List.pairwise_lt_range _
  · exact List.Pairwise.nil

lemma init_default_events_mem (b : builder N α) (p : Fin N × ℕ) :
    p ∈ b.init_default_events ↔
      (b.defaults_ p.1).isSome ∧ p.2 < b.caps_ p.1 := by
  rw [init_default_events_eq, List.mem_flatMap]
  constructor
  · rintro ⟨i, -, hp⟩
    rcases List.mem_map.mp hp with ⟨j, hj, rfl⟩
    split at hj
    · exact ⟨by assumption, List.mem_range.mp hj⟩
    · simp at hj
  · rintro ⟨hsome, hlt⟩
    refine ⟨p.1, List.mem_finRange _, ?_⟩
    rw [if_pos hsome]
    exact List.mem_map.mpr ⟨p.2, List.mem_range.mpr hlt, rfl⟩

lemma init_default_events_length (b : builder N α) :
    b.init_default_events.length =
      ((List.finRange N).map
        (fun i => if (b.defaults_ i).isSome then b.caps_ i else 0)).sum := by
  rw [builder.init_default_events, List.flatMap, List.length_flatten,
    List.map_map]
  apply congrArg List.sum
  apply List.map_congr_left
  intro i _
  cases hd : b.defaults_ i <;> simp [hd]

/-! ### Content representation (read-back) lemmas -/

lemma fill_content_none {i : Fin N} (hd : b.defaults_ i = none) :
    b.fill_content i = [] := by
  simp [builder.fill_content, hd]

lemma fill_content_some {i : Fin N} {d : α i} (hd : b.defaults_ i = some d) :
    b.fill_content i = List.replicate (b.caps_ i) d := by
  simp [builder.fill_content, hd]

lemma represents_build (b : builder N α) (tsizes taligns : Fin N → ℕ)
    (addr : ℕ) :
    Represents (b.build tsizes taligns addr) b.fill_content := by
  intro i
  cases hd : b.defaults_ i with
  | none =>
      refine ⟨?_, fun j => ?_⟩
      · rw [build_sizes, hd, fill_content_none hd]
        rfl
      · rw [build_mem_none hd, fill_content_none hd]
        rfl
  | some d =>
      refine ⟨?_, fun j => ?_⟩
      · rw [build_sizes, hd, fill_content_some hd, List.length_replicate]
        rfl
      · rw [build_mem_some hd, fill_content_some hd, List.getElem?_replicate]

lemma push_back_ok_inv {mv mv2 : multi_vector N α} {i : Fin N} {v : α i}
    (h : mv.push_back i v = .ok mv2) :
    mv.sizes_ i < mv.capacities_ i ∧ mv2 = mv.apply_push i v := by
  by_cases hc : mv.capacities_ i ≤ mv.sizes_ i
  · rw [push_back_of_full hc] at h
    exact absurd h (by simp)
  · have hlt := Nat.not_le.mp hc
    rw [push_back_of_lt hlt] at h
    refine ⟨hlt, ?_⟩
    cases h
    rfl

lemma apply_push_sizes_self {mv : multi_vector N α} {i : Fin N} {v : α i}
    (hlt : mv.sizes_ i < mv.capacities_ i) :
    (mv.apply_push i v).sizes_ i = mv.sizes_ i + 1 := by
  rw [apply_push_of_lt hlt]
  exact Function.update_same i _ _

lemma apply_push_sizes_ne {mv : multi_vector N α} {i : Fin N} {v : α i}
    {j : Fin N} (hj : j ≠ i) :
    (mv.apply_push i v).sizes_ j = mv.sizes_ j := by
  by_cases hc : mv.capacities_ i ≤ mv.sizes_ i
  · rw [apply_push_of_full hc]
  · rw [apply_push_of_lt (Nat.not_le.mp hc)]
    exact Function.update_noteq hj _ _

lemma apply_push_mem_self {mv : multi_vector N α} {i : Fin N} {v : α i}
    (hlt : mv.sizes_ i < mv.capacities_ i) (k : ℕ) :
    (mv.apply_push i v).mem i k =
      if k = mv.sizes_ i then some v else mv.mem i k := by
  rw [apply_push_of_lt hlt]
  show Function.update mv.mem i _ i k = _
  rw [Function.update_same]

lemma apply_push_mem_ne {mv : multi_vector N α} {i : Fin N} {v : α i}
    {j : Fin N} (hj : j ≠ i) :
    (mv.apply_push i v).mem j = mv.mem j := by
  by_cases hc : mv.capacities_ i ≤ mv.sizes_ i
  · rw [apply_push_of_full hc]
  · rw [apply_push_of_lt (Nat.not_le.mp hc)]
    exact Function.update_noteq hj _ _

lemma represents_push {mv : multi_vector N α} {c : (i : Fin N) → List (α i)}
    (h : Represents mv c) {i : Fin N} (hlt : mv.sizes_ i < mv.capacities_ i)
    (v : α i) :
    Represents (mv.apply_push i v) (Function.update c i (c i ++ [v])) := by
  intro j
  by_cases hj : j = i
  · subst hj
    rw [Function.update_same]
    refine ⟨?_, fun k => ?_⟩
    · rw [apply_push_sizes_self hlt, (h j).1, List.length_append]
      rfl
    · rw [apply_push_mem_self hlt]
      by_cases hkl : k = mv.sizes_ j
      · rw [if_pos hkl, hkl, (h j).1, List.getElem?_concat_length]
      · rw [if_neg hkl, (h j).2 k]
        by_cases hklt : k < (c j).length
        · rw [List.getElem?_append_left hklt]
        · rw [List.getElem?_eq_none (Nat.not_lt.mp hklt),
            List.getElem?_eq_none]
          rw [List.length_append, List.length_cons, List.length_nil]
          rw [(h j).1] at hkl
          omega
  · rw [Function.update_noteq hj]
    refine ⟨?_, fun k => ?_⟩
    · rw [apply_push_sizes_ne hj]
      exact (h j).1
    · rw [apply_push_mem_ne hj]
      exact (h j).2 k

lemma represents_push_seq {mv mv2 : multi_vector N α}
    {c : (i : Fin N) → List (α i)} {ps : List ((i : Fin N) × α i)}
    (h : Represents mv c) (hps : mv.push_seq ps = .ok mv2) :
    Represents mv2 (fun j => c j ++ pushed_for ps j) := by
  induction ps generalizing mv c with
  | nil =>
      rw [multi_vector.push_seq] at hps
      cases hps
      have hc : (fun j => c j ++ pushed_for ([] : List ((i : Fin N) × α i)) j) = c := by
        funext j
        rw [show pushed_for ([] : List ((i : Fin N) × α i)) j = [] from rfl,
          List.append_nil]
      rw [hc]
      exact h
  | cons p rest ih =>
      obtain ⟨i, v⟩ := p
      rw [multi_vector.push_seq] at hps
      rcases hok : mv.push_back i v with e | mvnext
      · rw [hok] at hps
        simp at hps
      · rw [hok] at hps
        simp only at hps
        obtain ⟨hlt, rfl⟩ := push_back_ok_inv hok
        have hrep := represents_push h hlt v
        have hres := ih hrep hps
        have heq :
            (fun j => Function.update c i (c i ++ [v]) j ++ pushed_for rest j)
              = fun j => c j ++ pushed_for (⟨i, v⟩ :: rest) j := by
          funext j
          by_cases hj : i = j
          · subst hj
            rw [Function.update_same]
            simp [pushed_for, List.append_assoc]
          · rw [Function.update_noteq (Ne.symm hj)]
            simp only [pushed_for, dif_neg hj]
        rw [← heq]
        exact hres

lemma represents_read {mv : multi_vector N α} {c : (i : Fin N) → List (α i)}
    (h : Represents mv c) (i : Fin N) :
    mv.read_slots i = (c i).map some := by
  rw [multi_vector.read_slots]
  apply List.ext_getElem
  · rw [List.length_map, List.length_range, List.length_map, (h i).1]
  · intro n h1 h2
    rw [List.length_map, List.length_range, (h i).1] at h1
    rw [List.getElem_map, List.getElem_range, List.getElem_map]
    rw [(h i).2 n, List.getElem?_eq_getElem h1]


/-! ## Claim theorems -/

/-- C1: `push_back(T, value)` fails with the CapacityExceeded condition
exactly when `size[T] == capacity[T]` and then leaves the container
completely unchanged (no element constructed, no size modified);
otherwise it succeeds, copy-constructs `value` at `data(T)[size[T]]`, and
increments `size[T]` by exactly one (everything else untouched).  Stated
for containers satisfying the `size <= capacity` invariant, which every
reachable container does. -/
theorem C1_push_back_bounded (mv : multi_vector N α) (i : Fin N) (v : α i)
    (hinv : mv.sizes_ i ≤ mv.capacities_ i) :
    (mv.sizes_ i = mv.capacities_ i →
      mv.push_back i v = .error .capacityExceeded ∧ mv.apply_push i v = mv) ∧
    (mv.sizes_ i ≠ mv.capacities_ i →
      mv.push_back i v = .ok (mv.apply_push i v) ∧
      (mv.apply_push i v).sizes_ i = mv.sizes_ i + 1 ∧
      (mv.apply_push i v).mem i (mv.sizes_ i) = some v ∧
      (∀ k, k ≠ mv.sizes_ i → (mv.apply_push i v).mem i k = mv.mem i k) ∧
      (∀ j, j ≠ i → (mv.apply_push i v).sizes_ j = mv.sizes_ j ∧
        (mv.apply_push i v).mem j = mv.mem j) ∧
      (mv.apply_push i v).capacities_ = mv.capacities_ ∧
      (mv.apply_push i v).data_ptrs_ = mv.data_ptrs_ ∧
      (mv.apply_push i v).block_ = mv.block_) := by
  constructor
  · intro heq
    have hge : mv.capacities_ i ≤ mv.sizes_ i := Nat.le_of_eq heq.symm
    exact ⟨push_back_of_full hge, apply_push_of_full hge⟩
  · intro hne
    have hlt : mv.sizes_ i < mv.capacities_ i := Nat.lt_of_le_of_ne hinv hne
    refine ⟨push_back_of_lt hlt, apply_push_sizes_self hlt, ?_, ?_, ?_, ?_, ?_, ?_⟩
    · rw [apply_push_mem_self hlt, if_pos rfl]
    · intro k hk
      rw [apply_push_mem_self hlt, if_neg hk]
    · intro j hj
      exact ⟨apply_push_sizes_ne hj, apply_push_mem_ne hj⟩
    · rw [apply_push_of_lt hlt]
    · rw [apply_push_of_lt hlt]
    · rw [apply_push_of_lt hlt]

/-- C1 witness: on the concrete container of capacities (2, 1) with size
0 for type 0, a push succeeds and bumps the size. -/
theorem C1_witness :
    mvW.push_back 0 5 = .ok (mvW.apply_push 0 5) ∧
    (mvW.apply_push 0 5).sizes_ 0 = mvW.sizes_ 0 + 1 := by
  have h := (C1_push_back_bounded mvW 0 5 (by decide)).2 (by decide)
  exact ⟨h.1, h.2.1⟩

/-- C2: a freshly finalized container has, for every type i,
`size[i] = capacity[i]` if a default was recorded for i and 0 otherwise;
every one of the `capacity[i]` slots of a defaulted type holds a copy of
the default; the default copies are constructed in increasing index order
within each type (and in declared type order), as listed by
`init_default_events`; and the ghost construction counter equals the
number of fill events. -/
theorem C2_build_defaults (tsizes taligns : Fin N → ℕ) (b : builder N α)
    (addr : ℕ) :
    (∀ i, (b.build tsizes taligns addr).sizes_ i =
      if (b.defaults_ i).isSome then b.caps_ i else 0) ∧
    (∀ i (d : α i), b.defaults_ i = some d →
      ∀ j, j < b.caps_ i → (b.build tsizes taligns addr).mem i j = some d) ∧
    b.init_default_events.Pairwise event_lt ∧
    (∀ p, p ∈ b.init_default_events ↔
      (b.defaults_ p.1).isSome ∧ p.2 < b.caps_ p.1) ∧
    (b.build tsizes taligns addr).ctor_count = b.init_default_events.length := by
  refine ⟨fun i => build_sizes tsizes taligns addr i, ?_, ?_, ?_, ?_⟩
  · intro i d hd j hj
    rw [build_mem_some hd, if_pos hj]
  · exact init_default_events_pairwise b
  · exact init_default_events_mem b
  · rw [build_ctor, init_default_events_length]

/-- C2 witness: with capacities (3, 1) and default 42 for type 0 only,
the finalized container has sizes (3, 0) and slot 2 of type 0 holds 42. -/
theorem C2_witness :
    mvD.sizes_ 0 = 3 ∧ mvD.sizes_ 1 = 0 ∧ mvD.mem 0 2 = some 42 := by
  have h := C2_build_defaults tszW talW bD 64
  refine ⟨(h.1 0).trans (by decide), (h.1 1).trans (by decide), ?_⟩
  exact h.2.1 0 42 (by decide) 2 (by decide)

/-- C3: the move constructor copies all bookkeeping (block address, block
size, every per-type size, capacity and base pointer, and the live
elements at their addresses) to the destination and resets the source to
the empty state: null block, and for every type size 0, capacity 0 and
null base pointer. -/
theorem C3_move_transfer (mv : multi_vector N α) :
    (mv.move_construct.1.block_ = mv.block_ ∧
     mv.move_construct.1.block_size_ = mv.block_size_ ∧
     ∀ i, mv.move_construct.1.sizes_ i = mv.sizes_ i ∧
       mv.move_construct.1.capacities_ i = mv.capacities_ i ∧
       mv.move_construct.1.data_ptrs_ i = mv.data_ptrs_ i ∧
       mv.move_construct.1.mem i = mv.mem i) ∧
    (mv.move_construct.2.block_ = none ∧
     mv.move_construct.2.block_size_ = 0 ∧
     ∀ i, mv.move_construct.2.sizes_ i = 0 ∧
       mv.move_construct.2.capacities_ i = 0 ∧
       mv.move_construct.2.data_ptrs_ i = none) :=
  ⟨⟨rfl, rfl, fun _ => ⟨rfl, rfl, rfl, rfl⟩⟩,
   ⟨rfl, rfl, fun _ => ⟨rfl, rfl, rfl⟩⟩⟩

/-- C4: for a reachable container, the teardown destructor-call list is
strictly ordered (increasing element index within each type, declared
order across types), hence destroys each element at most once; it
contains exactly the live elements of the non-trivially-destructible
types; a blockless (default-constructed or moved-from) container tears
down nothing, so the sequence runs at most once per block; and when no
type is trivially destructible the number of destructor calls equals the
ghost count of placement-constructions into the block (no leak, no
double destruction). -/
theorem C4_teardown_balanced (mv : multi_vector N α) (triv : Fin N → Bool)
    (h : Reachable mv) :
    (mv.teardown triv).Pairwise event_lt ∧
    (∀ p, p ∈ mv.teardown triv ↔
      mv.block_ ≠ none ∧ triv p.1 = false ∧ p.2 < mv.sizes_ p.1) ∧
    (mv.block_ = none → mv.teardown triv = []) ∧
    ((∀ i, triv i = false) → (mv.teardown triv).length = mv.ctor_count) := by
  obtain ⟨hbound, hctor, hblock, hdata⟩ := reachable_goodState h
  by_cases hb : mv.block_ = none
  · rw [teardown_of_no_block hb]
    refine ⟨List.Pairwise.nil, fun p => ?_, fun _ => rfl, fun htr => ?_⟩
    · simp [hb]
    · have h0 : mv.ctor_count = 0 := by
        rw [hctor, multi_vector.live_total,
          List.map_congr_left (fun i _ => (hblock hb i).1)]
        simp
      rw [h0]
      rfl
  · rw [teardown_of_block hb]
    refine ⟨destroy_elements_pairwise triv mv, fun p => ?_,
      fun hc => absurd hc hb, fun htr => ?_⟩
    · rw [destroy_elements_mem]
      simp [hb]
    · have heq : triv = fun _ => false := funext htr
      subst heq
      rw [destroy_elements_length, hctor]

/-- C4 witness: the concrete defaulted container mvD (sizes (3, 0),
block owned) destroys exactly its 3 constructed elements, and the event
(0, 2) is among the destructor calls. -/
theorem C4_witness :
    (mvD.teardown (fun _ => false)).length = mvD.ctor_count ∧
    ((0, 2) : Fin 2 × ℕ) ∈ mvD.teardown (fun _ => false) := by
  have h := C4_teardown_balanced mvD (fun _ => false)
    (Reachable.built tszW talW bD 64)
  exact ⟨h.2.2.2 (fun _ => rfl), (h.2.1 (0, 2)).mpr (by decide)⟩

/-- C5: for every ordered list of (size, alignment, capacity) tuples the
computed layout has as many offsets as tuples, `offset[0] = 0` (aligned
for type 0), and for every i with `i + 1` in range and a nonzero
alignment (every C++ alignment is nonzero),
`offset[i+1] = align_up(offset[i] + capacity[i] * size[i], alignment[i+1])`;
moreover the single allocation request of `build` carries alignment
`block_align`, the maximum alignment across the declared types. -/
theorem C5_layout_contract (L : List (ℕ × ℕ × ℕ))
    (tsizes taligns : Fin N → ℕ) (b : builder N α) (hN : 0 < N) :
    (layout L).1.length = L.length ∧
    (0 < L.length → (layout L).1.getD 0 0 = 0) ∧
    (∀ k, k + 1 < L.length → (L.getD (k + 1) (0, 0, 0)).2.1 ≠ 0 →
      (layout L).1.getD (k + 1) 0 =
        align_up
          ((layout L).1.getD k 0 +
            (L.getD k (0, 0, 0)).2.2 * (L.getD k (0, 0, 0)).1)
          (L.getD (k + 1) (0, 0, 0)).2.1) ∧
    (b.alloc_request tsizes taligns).2 = block_align taligns ∧
    (∀ i, taligns i ≤ block_align taligns) ∧
    ∃ i, block_align taligns = taligns i := by
  refine ⟨layout_loop_length L 0, ?_, ?_, rfl, block_align_le taligns,
    block_align_attained hN taligns⟩
  · intro hL
    rw [layout, layout_loop_getD_zero L 0 hL, align_up_zero_left]
  · intro k hk hal
    exact layout_loop_getD_succ L 0 k hk hal

/-- C5 witness: on the tuple list ((8,8,2), (8,8,1)) the first offset is
0, the second offset satisfies the `align_up` recurrence, and the block
alignment bounds the concrete alignments. -/
theorem C5_witness :
    (layout [((8 : ℕ), (8 : ℕ), (2 : ℕ)), (8, 8, 1)]).1.getD 0 0 = 0 ∧
    (layout [((8 : ℕ), (8 : ℕ), (2 : ℕ)), (8, 8, 1)]).1.getD 1 0 =
      align_up
        ((layout [((8 : ℕ), (8 : ℕ), (2 : ℕ)), (8, 8, 1)]).1.getD 0 0 +
          ([((8 : ℕ), (8 : ℕ), (2 : ℕ)), (8, 8, 1)].getD 0 (0, 0, 0)).2.2 *
            ([((8 : ℕ), (8 : ℕ), (2 : ℕ)), (8, 8, 1)].getD 0 (0, 0, 0)).1)
        ([((8 : ℕ), (8 : ℕ), (2 : ℕ)), (8, 8, 1)].getD 1 (0, 0, 0)).2.1 ∧
    talW 0 ≤ block_align talW := by
  have h := C5_layout_contract [((8 : ℕ), (8 : ℕ), (2 : ℕ)), (8, 8, 1)]
    tszW talW bW (by decide)
  exact ⟨h.2.1 (by decide), h.2.2.1 0 (by decide) (by decide),
    h.2.2.2.2.1 0⟩

/-- C6 counterexample: build with capacities (1, 0).  Type 1 has
capacity 0 yet its `data` pointer is non-null (block base + offset 8),
refuting the claim that `data` returns null whenever the type's capacity
is 0. -/
theorem C6_counterexample : mvZ.capacities_ 1 = 0 ∧ mvZ.data 1 ≠ none := by
  decide

/-- C6 (amended): `data(type)` returns the stored base pointer of that
type's array; it is null exactly when the container owns no block
(default-constructed or moved-from).  After any build, `data(type)` is
`block address + offset[type]`, non-null even for a capacity-0 type (a
non-dereferenceable sentinel, since zero bytes are reserved there). -/
theorem C6_data_null_iff_no_block :
    (∀ (mv : multi_vector N α), Reachable mv →
      ∀ i, (mv.data i = none ↔ mv.block_ = none)) ∧
    (∀ (tsizes taligns : Fin N → ℕ) (b : builder N α) (addr : ℕ) (i : Fin N),
      (b.build tsizes taligns addr).data i =
        some (addr + (layout (b.props tsizes taligns)).1.getD i 0)) := by
  constructor
  · intro mv h i
    exact (reachable_goodState h).2.2.2 i
  · intro tsizes taligns b addr i
    exact build_data_ptrs tsizes taligns addr i

/-- C6 witness: on the concrete capacity-(1,0) container, `data` of
type 0 is null exactly when the block is null (it is not), and `data` of
the capacity-0 type 1 is the block base plus its offset. -/
theorem C6_witness :
    (mvZ.data 0 = none ↔ mvZ.block_ = none) ∧
    mvZ.data 1 = some (64 + (layout (bZ.props tszW talW)).1.getD 1 0) := by
  have h := C6_data_null_iff_no_block (N := 2) (α := alphaW)
  exact ⟨h.1 mvZ (Reachable.built tszW talW bZ 64) 0, h.2 tszW talW bZ 64 1⟩

/-- C7: every container reachable through the public lifecycle (default
construction, build, push_back succeeding or throwing, either side of a
move) satisfies `size[i] <= capacity[i]` for every type i. -/
theorem C7_size_le_capacity {mv : multi_vector N α} (h : Reachable mv)
    (i : Fin N) : mv.sizes_ i ≤ mv.capacities_ i :=
  (reachable_goodState h).1 i

/-- C7 witness: the invariant at type 0 of the concrete container after
one successful push. -/
theorem C7_witness :
    (mvW.apply_push 0 7).sizes_ 0 ≤ (mvW.apply_push 0 7).capacities_ 0 :=
  C7_size_le_capacity
    (Reachable.pushed 0 7 (Reachable.built tszW talW bW 64)) 0

/-- C8: when the declared type list is duplicate-free and type `t` sits
at ordinal position `i`, the compile-time selector resolves to exactly
slot `i`, so the type-selector and index-selector forms of `size`,
`capacity`, `data` and `push_back` agree on every container state. -/
theorem C8_selector_equivalence (ts : List ℕ) (t : ℕ) (i : Fin N)
    (hnd : ts.Nodup) (hi : ts[i.val]? = some t) :
    idx_v N ts t = some i ∧
    (∀ mv : multi_vector N α, size_by_type ts t mv = some (mv.sizes_ i)) ∧
    (∀ mv : multi_vector N α,
      capacity_by_type ts t mv = some (mv.capacities_ i)) ∧
    (∀ mv : multi_vector N α, data_by_type ts t mv = some (mv.data_ptrs_ i)) ∧
    (∀ (β : Type) (mv : multi_vector N (fun _ => β)) (v : β),
      push_back_by_type ts t mv v = some (mv.push_back i v)) := by
  have h0 : idx_v N ts t = some i := idx_v_eq hnd hi
  refine ⟨h0, fun mv => ?_, fun mv => ?_, fun mv => ?_, fun β mv v => ?_⟩
  · rw [size_by_type, h0]
    rfl
  · rw [capacity_by_type, h0]
    rfl
  · rw [data_by_type, h0]
    rfl
  · rw [push_back_by_type, h0]
    rfl

/-- C8 witness: in the two-type list [10, 20], type 20 resolves to slot
1, and the by-type size accessor agrees with the by-index one on the
concrete container. -/
theorem C8_witness :
    idx_v 2 [10, 20] 20 = some 1 ∧
    size_by_type [10, 20] 20 mvW = some (mvW.sizes_ 1) := by
  have h := C8_selector_equivalence (α := alphaW) [10, 20] 20 1
    (by decide) (by decide)
  exact ⟨h.1, h.2.1 mvW⟩

/-- C9: after any finite sequence of successful `push_back` calls
interleaved across types on a freshly finalized container, each type's
slots `[0, size)` read back exactly the elements constructed for that
type — the default fills followed by the pushed values — in insertion
order. -/
theorem C9_insertion_readback (tsizes taligns : Fin N → ℕ)
    (b : builder N α) (addr : ℕ) (ps : List ((i : Fin N) × α i))
    (mv2 : multi_vector N α)
    (h : (b.build tsizes taligns addr).push_seq ps = .ok mv2) (i : Fin N) :
    mv2.read_slots i = (b.fill_content i ++ pushed_for ps i).map some :=
  represents_read
    (represents_push_seq (represents_build b tsizes taligns addr) h) i

/-- C9 witness: pushing 7 and 8 into type 0 interleaved with 9 into
type 1 reads back [7, 8] from type 0. -/
theorem C9_witness :
    (((mvW.apply_push 0 7).apply_push 1 9).apply_push 0 8).read_slots 0 =
      [some 7, some 8] := by
  have h := C9_insertion_readback tszW talW bW 64
    [⟨0, 7⟩, ⟨1, 9⟩, ⟨0, 8⟩]
    (((mvW.apply_push 0 7).apply_push 1 9).apply_push 0 8) rfl 0
  exact h.trans (by decide)

/-- C10: a moved-from container is safely usable: every size and
capacity reads 0, every data pointer is null, any push_back fails with
the CapacityExceeded condition leaving it unchanged, and its teardown is
a no-op. -/
theorem C10_moved_from_safe (mv : multi_vector N α) (i : Fin N) (v : α i)
    (triv : Fin N → Bool) :
    mv.move_construct.2.sizes_ i = 0 ∧
    mv.move_construct.2.capacities_ i = 0 ∧
    mv.move_construct.2.data i = none ∧
    mv.move_construct.2.push_back i v = .error .capacityExceeded ∧
    mv.move_construct.2.apply_push i v = mv.move_construct.2 ∧
    mv.move_construct.2.teardown triv = [] := by
  refine ⟨rfl, rfl, rfl, ?_, ?_, ?_⟩
  · exact push_back_of_full (Nat.le_refl 0)
  · exact apply_push_of_full (Nat.le_refl 0)
  · exact teardown_of_no_block rfl triv

end MultiVec
